import Mathlib

/-!
Verification of the kameo transport-agnostic ping-pong demo.

The definitions below are a shallow embedding of the Rust sources:
  * `src/ping-common/src/lib.rs`   — message types and the `PingActor` handler
  * `src/ping-http-server/src/main.rs` — the WebSocket bridge `handle_socket`
  * `src/ping-cli-server/src/main.rs`, `src/ping-cli-client/src/main.rs`
    — peer-to-peer transport configuration constants

Machine integers (`u64`) are modelled as `Nat` with explicit reduction
modulo `2 ^ 64` wherever the source performs arithmetic on them.
-/

namespace PingPong

/-- Modulus of Rust `u64` arithmetic. -/
def U64MOD : Nat := 2 ^ 64

/-- `Ping` (src/ping-common/src/lib.rs:5-8): `{ message: String, sequence: u64 }`. -/
structure Ping where
  message : String
  sequence : Nat
  deriving DecidableEq, Repr

/-- `Pong` (src/ping-common/src/lib.rs:12-16):
`{ message: String, sequence: u64, total_pings: u64 }`. -/
structure Pong where
  message : String
  sequence : Nat
  total_pings : Nat
  deriving DecidableEq, Repr

/-- `PingActor` (src/ping-common/src/lib.rs:28-30): owns the `u64` counter
`ping_count`. -/
structure PingActor where
  ping_count : Nat
  deriving DecidableEq, Repr

/-- `PongReply` (src/ping-common/src/lib.rs:39): newtype wrapper around `Pong`
implementing kameo's `Reply` trait. -/
structure PongReply where
  pong : Pong
  deriving DecidableEq, Repr

/-- `RemoteActor::REMOTE_ID` for `PingActor` (src/ping-common/src/lib.rs:33). -/
def PingActor.REMOTE_ID : String := "ping_pong_app::PingActor"

/-- The UUID in the `remote_message` attribute on `impl Message<Ping> for
PingActor` (src/ping-common/src/lib.rs:43). -/
def pingRemoteMessageUuid : String := "a1b2c3d4-e5f6-7890-abcd-ef1234567890"

/-- `PingActor::handle` (src/ping-common/src/lib.rs:47-63): increments
`ping_count` (`u64` addition, taken mod `2 ^ 64`) and replies with the
formatted echo message, the request's sequence and the new counter value. -/
def PingActor.handle (a : PingActor) (msg : Ping) : PingActor × PongReply :=
  let newCount := (a.ping_count + 1) % U64MOD
  (⟨newCount⟩,
   ⟨{ message := "Pong! Responding to: " ++ msg.message
    , sequence := msg.sequence
    , total_pings := newCount }⟩)

/-- Sequential processing of a list of requests by one actor: the mailbox
delivers requests one at a time, each `handle` call threading the state. -/
def runFrom (a : PingActor) : List Ping → List Pong × PingActor
  | [] => ([], a)
  | m :: ms =>
    let s := a.handle m
    let rest := runFrom s.1 ms
    (s.2.pong :: rest.1, rest.2)

/-- The `total_pings` fields of the replies of a sequential run. -/
def runTotals (a : PingActor) (ms : List Ping) : List Nat :=
  (runFrom a ms).1.map Pong.total_pings

/-- Peer-to-peer messaging configuration: what
`remote::messaging::Config::default().with_request_timeout(...)` sets. -/
structure MessagingConfig where
  request_timeout_secs : Nat
  deriving DecidableEq, Repr

/-- The per-swarm transport timeouts configured in a `main`. -/
structure SwarmTimeouts where
  messaging : MessagingConfig
  idle_connection_timeout_secs : Nat
  deriving DecidableEq, Repr

/-- Timeouts configured by `ping-cli-server` `main`
(src/ping-cli-server/src/main.rs:29-40): request timeout 120 s,
idle-connection timeout 600 s. -/
def serverSwarmTimeouts : SwarmTimeouts :=
  { messaging := { request_timeout_secs := 120 }
  , idle_connection_timeout_secs := 600 }

/-- Timeouts configured by `ping-cli-client` `main`
(src/ping-cli-client/src/main.rs:47-58): request timeout 120 s,
idle-connection timeout 600 s. -/
def clientSwarmTimeouts : SwarmTimeouts :=
  { messaging := { request_timeout_secs := 120 }
  , idle_connection_timeout_secs := 600 }

/-- The remote identifier compiled into the server binary (via `ping-common`). -/
def serverRemoteId : String := PingActor.REMOTE_ID

/-- The remote identifier compiled into the client binary (via `ping-common`). -/
def clientRemoteId : String := PingActor.REMOTE_ID

/-- The remote-message UUID compiled into the server binary. -/
def serverRemoteMessageUuid : String := pingRemoteMessageUuid

/-- The remote-message UUID compiled into the client binary. -/
def clientRemoteMessageUuid : String := pingRemoteMessageUuid

/-! ### JSON wire format

`serde_json` as used by the demo: `serde_json::to_string` on `Ping`/`Pong`
(derived `Serialize`: fields in declaration order, no whitespace, strings
escaped as serde_json does) and `serde_json::from_str::<Ping>` /
`::<Pong>` (a full JSON parse followed by typed field extraction; unknown
fields ignored, duplicate known fields rejected, `u64` fields require a
non-negative integer below `2 ^ 64`). Floating-point numbers are modelled
as parse failures: the demo's structs have no float field, so a float can
never contribute to a successful `from_str` on them. -/

def lbrace : Char := Char.ofNat 123

def rbrace : Char := Char.ofNat 125

/-- JSON values (serde_json's data model, numbers restricted to the
non-negative integers the demo's types can carry). -/
inductive Json where
  | null
  | bool (b : Bool)
  | num (n : Nat)
  | str (s : String)
  | arr (elems : List Json)
  | obj (fields : List (String × Json))
  deriving Repr

/-- Decimal digits of `n`, least significant first, with explicit fuel so
that the definition reduces in the kernel. -/
def toDigitsRev : Nat → Nat → List Nat
  | 0, _ => []
  | fuel + 1, n => if n = 0 then [] else n % 10 :: toDigitsRev fuel (n / 10)

/-- Decimal digits of `n`, most significant first. -/
def natDigits (n : Nat) : List Nat :=
  if n = 0 then [0] else (toDigitsRev n n).reverse

/-- Decimal representation of `n`, as serde_json writes a `u64`. -/
def natChars (n : Nat) : List Char := (natDigits n).map Nat.digitChar

/-- serde_json's escaping of one character inside a JSON string: quote and
backslash escaped, the five named control escapes, `\u00XX` for the other
control characters, everything else verbatim. -/
def escChar (c : Char) : List Char :=
  if c = '"' then ['\\', '"']
  else if c = '\\' then ['\\', '\\']
  else if c.toNat = 8 then ['\\', 'b']
  else if c.toNat = 9 then ['\\', 't']
  else if c.toNat = 10 then ['\\', 'n']
  else if c.toNat = 12 then ['\\', 'f']
  else if c.toNat = 13 then ['\\', 'r']
  else if c.toNat < 32 then
    ['\\', 'u', '0', '0',
      Nat.digitChar (c.toNat / 16), Nat.digitChar (c.toNat % 16)]
  else [c]

def escChars (l : List Char) : List Char := (l.map escChar).flatten

/-- A JSON string literal: quote, escaped content, quote. -/
def quoteChars (s : String) : List Char :=
  '"' :: (escChars s.toList ++ ['"'])

/-- `serde_json::to_string(&ping)`: `{"message":…,"sequence":…}`. -/
def pingToChars (p : Ping) : List Char :=
  lbrace :: (quoteChars "message" ++ ':' :: quoteChars p.message
    ++ ',' :: (quoteChars "sequence" ++ ':' :: natChars p.sequence
    ++ [rbrace]))

def pingToStr (p : Ping) : String := String.mk (pingToChars p)

/-- `serde_json::to_string(&pong)`:
`{"message":…,"sequence":…,"total_pings":…}` — the counter field is spelled
`total_pings` on the wire. -/
def pongToChars (q : Pong) : List Char :=
  lbrace :: (quoteChars "message" ++ ':' :: quoteChars q.message
    ++ ',' :: (quoteChars "sequence" ++ ':' :: natChars q.sequence
    ++ ',' :: (quoteChars "total_pings" ++ ':' :: natChars q.total_pings
    ++ [rbrace])))

def pongToStr (q : Pong) : String := String.mk (pongToChars q)

def isWsChar (c : Char) : Bool :=
  c = ' ' || c = '\t' || c = '\n' || c = '\r'

def skipWs : List Char → List Char
  | [] => []
  | c :: cs => if isWsChar c then skipWs cs else c :: cs

def isDigitChar (c : Char) : Bool := 48 ≤ c.toNat && c.toNat ≤ 57

def hexVal (c : Char) : Option Nat :=
  if 48 ≤ c.toNat ∧ c.toNat ≤ 57 then some (c.toNat - 48)
  else if 97 ≤ c.toNat ∧ c.toNat ≤ 102 then some (c.toNat - 87)
  else if 65 ≤ c.toNat ∧ c.toNat ≤ 70 then some (c.toNat - 55)
  else none

def consStr (c : Char) :
    Option (List Char × List Char) → Option (List Char × List Char)
  | some (s, r) => some (c :: s, r)
  | none => none

mutual

/-- Parse the body of a JSON string (after the opening quote) up to and
including the closing quote; returns the decoded characters and the rest.
Raw control characters are rejected, as serde_json does. -/
def parseStrChars : List Char → Option (List Char × List Char)
  | [] => none
  | c :: cs =>
    if c = '"' then some ([], cs)
    else if c = '\\' then parseEsc cs
    else if c.toNat < 32 then none
    else consStr c (parseStrChars cs)

/-- Parse one escape sequence (after the backslash), including `\uXXXX`
with surrogate pairs. -/
def parseEsc : List Char → Option (List Char × List Char)
  | [] => none
  | e :: cs =>
    if e = '"' then consStr '"' (parseStrChars cs)
    else if e = '\\' then consStr '\\' (parseStrChars cs)
    else if e = '/' then consStr '/' (parseStrChars cs)
    else if e = 'b' then consStr (Char.ofNat 8) (parseStrChars cs)
    else if e = 't' then consStr (Char.ofNat 9) (parseStrChars cs)
    else if e = 'n' then consStr (Char.ofNat 10) (parseStrChars cs)
    else if e = 'f' then consStr (Char.ofNat 12) (parseStrChars cs)
    else if e = 'r' then consStr (Char.ofNat 13) (parseStrChars cs)
    else if e = 'u' then
      match cs with
      | h1 :: h2 :: h3 :: h4 :: cs2 =>
        match hexVal h1, hexVal h2, hexVal h3, hexVal h4 with
        | some v1, some v2, some v3, some v4 =>
          let code := 4096 * v1 + 256 * v2 + 16 * v3 + v4
          if code < 55296 ∨ 57344 ≤ code then
            consStr (Char.ofNat code) (parseStrChars cs2)
          else if code < 56320 then
            match cs2 with
            | b1 :: b2 :: g1 :: g2 :: g3 :: g4 :: cs3 =>
              if b1 = '\\' ∧ b2 = 'u' then
                match hexVal g1, hexVal g2, hexVal g3, hexVal g4 with
                | some w1, some w2, some w3, some w4 =>
                  let lo := 4096 * w1 + 256 * w2 + 16 * w3 + w4
                  if 56320 ≤ lo ∧ lo < 57344 then
                    consStr
                      (Char.ofNat
                        (65536 + (code - 55296) * 1024 + (lo - 56320)))
                      (parseStrChars cs3)
                  else none
                | _, _, _, _ => none
              else none
            | _ => none
          else none
        | _, _, _, _ => none
      | _ => none
    else none

end

/-- Longest leading run of decimal digits, as digit values. -/
def parseDigits : List Char → List Nat × List Char
  | [] => ([], [])
  | c :: cs =>
    if isDigitChar c then
      let r := parseDigits cs
      ((c.toNat - 48) :: r.1, r.2)
    else ([], c :: cs)

/-- A following `.`, `e` or `E` makes the token a float. -/
def floatFollows : List Char → Bool
  | [] => false
  | c :: _ => c = '.' || c = 'e' || c = 'E'

/-- Parse a non-negative JSON integer starting at `l` (no leading zeros,
rejecting floats; see the section comment for why floats are failures). -/
def parseNum (l : List Char) : Option (Json × List Char) :=
  let pr := parseDigits l
  if pr.1 = [] then none
  else if 2 ≤ pr.1.length ∧ pr.1.headI = 0 then none
  else if floatFollows pr.2 then none
  else some (.num (pr.1.foldl (fun x d => 10 * x + d) 0), pr.2)

mutual

/-- Parse one JSON value after skipping whitespace; `fuel` bounds the
recursion and is always sufficient when set to three times the input length
plus a constant (every unit of fuel spent accompanies consumed input). -/
def parseValue : Nat → List Char → Option (Json × List Char)
  | 0, _ => none
  | fuel + 1, input =>
    match skipWs input with
    | [] => none
    | c :: cs =>
      if c = lbrace then parseObjBody fuel cs
      else if c = '[' then parseArrBody fuel cs
      else if c = '"' then
        match parseStrChars cs with
        | some (s, r) => some (.str (String.mk s), r)
        | none => none
      else if c = 't' then
        if cs.take 3 = ['r', 'u', 'e'] then some (.bool true, cs.drop 3)
        else none
      else if c = 'f' then
        if cs.take 4 = ['a', 'l', 's', 'e'] then some (.bool false, cs.drop 4)
        else none
      else if c = 'n' then
        if cs.take 3 = ['u', 'l', 'l'] then some (.null, cs.drop 3)
        else none
      else if isDigitChar c then parseNum (c :: cs)
      else none

/-- Parse an object body after the opening brace. -/
def parseObjBody : Nat → List Char → Option (Json × List Char)
  | 0, _ => none
  | fuel + 1, cs =>
    match skipWs cs with
    | [] => none
    | c :: cs2 =>
      if c = rbrace then some (.obj [], cs2)
      else
        match parseFields fuel (c :: cs2) with
        | some (fs, r) => some (.obj fs, r)
        | none => none

/-- Parse an array body after the opening bracket. -/
def parseArrBody : Nat → List Char → Option (Json × List Char)
  | 0, _ => none
  | fuel + 1, cs =>
    match skipWs cs with
    | [] => none
    | c :: cs2 =>
      if c = ']' then some (.arr [], cs2)
      else
        match parseElems fuel (c :: cs2) with
        | some (es, r) => some (.arr es, r)
        | none => none

/-- Parse one or more `"key": value` members, consuming the closing brace. -/
def parseFields : Nat → List Char →
    Option (List (String × Json) × List Char)
  | 0, _ => none
  | fuel + 1, input =>
    match skipWs input with
    | [] => none
    | c :: cs =>
      if c = '"' then
        match parseStrChars cs with
        | none => none
        | some (key, r1) =>
          match skipWs r1 with
          | [] => none
          | c2 :: r2 =>
            if c2 = ':' then
              match parseValue fuel r2 with
              | none => none
              | some (v, r3) =>
                match skipWs r3 with
                | [] => none
                | c3 :: r4 =>
                  if c3 = ',' then
                    match parseFields fuel r4 with
                    | none => none
                    | some (fs, r5) => some ((String.mk key, v) :: fs, r5)
                  else if c3 = rbrace then some ([(String.mk key, v)], r4)
                  else none
            else none
      else none

/-- Parse one or more array elements, consuming the closing bracket. -/
def parseElems : Nat → List Char → Option (List Json × List Char)
  | 0, _ => none
  | fuel + 1, input =>
    match parseValue fuel input with
    | none => none
    | some (v, r1) =>
      match skipWs r1 with
      | [] => none
      | c :: r2 =>
        if c = ',' then
          match parseElems fuel r2 with
          | none => none
          | some (es, r3) => some (v :: es, r3)
        else if c = ']' then some ([v], r2)
        else none

end

/-- `serde_json`'s top-level parse: one value, then only whitespace. -/
def jsonFromStr (s : String) : Option Json :=
  match parseValue (3 * s.toList.length + 16) s.toList with
  | some (j, rest) => if skipWs rest = [] then some j else none
  | none => none

def getField : List (String × Json) → String → Option Json
  | [], _ => none
  | (k2, v) :: rest, k => if k2 = k then some v else getField rest k

/-- Number of occurrences of key `k` (duplicate known fields are a serde
`duplicate field` error). -/
def countKey (fs : List (String × Json)) (k : String) : Nat :=
  fs.countP (fun f => f.1 == k)

/-- Typed extraction of a `Ping` from a parsed JSON value, as serde's
derived `Deserialize` behaves: both fields required exactly once, unknown
fields ignored, `sequence` must fit in `u64`. -/
def pingOfJson : Json → Option Ping
  | .obj fs =>
    if countKey fs "message" = 1 ∧ countKey fs "sequence" = 1 then
      match getField fs "message", getField fs "sequence" with
      | some (.str m), some (.num n) =>
        if n < U64MOD then some ⟨m, n⟩ else none
      | _, _ => none
    else none
  | _ => none

/-- Typed extraction of a `Pong` from a parsed JSON value. -/
def pongOfJson : Json → Option Pong
  | .obj fs =>
    if countKey fs "message" = 1 ∧ countKey fs "sequence" = 1 ∧
        countKey fs "total_pings" = 1 then
      match getField fs "message", getField fs "sequence",
          getField fs "total_pings" with
      | some (.str m), some (.num n), some (.num t) =>
        if n < U64MOD ∧ t < U64MOD then some ⟨m, n, t⟩ else none
      | _, _, _ => none
    else none
  | _ => none

/-- `serde_json::from_str::<Ping>` as used in `handle_socket`. -/
def pingFromStr (s : String) : Option Ping :=
  (jsonFromStr s).bind pingOfJson

/-- `serde_json::from_str::<Pong>` (used by the Wasm client's `onmessage`). -/
def pongFromStr (s : String) : Option Pong :=
  (jsonFromStr s).bind pongOfJson

/-! ### The WebSocket bridge (`handle_socket`) -/

/-- One iteration's input to `handle_socket`'s `socket.recv()` loop
(src/ping-http-server/src/main.rs:136-169), with the environment's failure
injections for the two awaited effects inside the `Text` arm: whether
`actor.ask(ping)` returns `Err`, and whether `socket.send` fails. `other`
stands for the remaining `Ok` frames (binary, ping, pong), which hit the
catch-all arm. -/
inductive SocketEvent where
  | text (s : String) (askFails : Bool) (sendFails : Bool)
  | closeFrame
  | recvError
  | other
  deriving DecidableEq, Repr

/-- The `handle_socket` loop (src/ping-http-server/src/main.rs:129-169):
returns the reply frames successfully sent and the actor's final state.
Parse failures are logged (`warn`) and skipped; ask errors are logged
(`error`) and skipped; a close frame, a receive error, or a failed send
breaks the loop. -/
def handleSocket : PingActor → List SocketEvent → List String × PingActor
  | a, [] => ([], a)
  | a, .text s askF sendF :: rest =>
    (match pingFromStr s with
    | none => handleSocket a rest
    | some ping =>
      if askF then handleSocket a rest
      else
        let r := a.handle ping
        if sendF then ([], r.1)
        else
          let out := handleSocket r.1 rest
          (pongToStr r.2.pong :: out.1, out.2))
  | a, .closeFrame :: _ => ([], a)
  | a, .recvError :: _ => ([], a)
  | a, .other :: rest => handleSocket a rest

/-- Whether an event can make the `handle_socket` loop break: a close frame,
a receive error, or a text frame whose send would fail. -/
def SocketEvent.canStop : SocketEvent → Bool
  | .closeFrame => true
  | .recvError => true
  | .text _ _ sendF => sendF
  | .other => false

/-- The requests that reach the actor: successfully parsed text frames whose
`ask` succeeds, in arrival order. -/
def acceptedPings (events : List SocketEvent) : List Ping :=
  events.filterMap fun e =>
    match e with
    | .text s false _ => pingFromStr s
    | _ => none

def headIsDigit : List Char → Bool
  | [] => false
  | c :: _ => isDigitChar c

theorem runFrom_nil (a : PingActor) : runFrom a [] = ([], a) := rfl

theorem runFrom_cons (a : PingActor) (m : Ping) (ms : List Ping) :
    runFrom a (m :: ms) =
      ((a.handle m).2.pong :: (runFrom (a.handle m).1 ms).1,
        (runFrom (a.handle m).1 ms).2) := rfl

theorem U64MOD_pos : 0 < U64MOD := by norm_num [U64MOD]

theorem handle_fst (c : Nat) (m : Ping) :
    (PingActor.handle ⟨c⟩ m).1 = ⟨(c + 1) % U64MOD⟩ := rfl

theorem runTotals_nil (a : PingActor) : runTotals a [] = [] := rfl

theorem runTotals_cons (a : PingActor) (m : Ping) (t : List Ping) :
    runTotals a (m :: t) =
      ((a.ping_count + 1) % U64MOD) :: runTotals (a.handle m).1 t := rfl

/-- Final counter of a sequential run: the start counter plus the number of
requests, mod `2 ^ 64`. -/
theorem runFrom_count (ms : List Ping) :
    ∀ c, c < U64MOD →
      (runFrom ⟨c⟩ ms).2.ping_count = (c + ms.length) % U64MOD := by
  induction ms with
  | nil =>
    intro c hc
    simpa [runFrom] using (Nat.mod_eq_of_lt hc).symm
  | cons m t ih =>
    intro c hc
    rw [runFrom_cons, handle_fst, ih _ (Nat.mod_lt _ U64MOD_pos),
      Nat.mod_add_mod, List.length_cons]
    congr 1
    omega

/-- Totals of a sequential run started at counter `c`:
the `i`-th reply carries `(c + i + 1) % 2 ^ 64`. -/
theorem runTotals_formula (ms : List Ping) :
    ∀ c, runTotals ⟨c⟩ ms =
      (List.range ms.length).map (fun i => (c + i + 1) % U64MOD) := by
  induction ms with
  | nil => intro c; rfl
  | cons m t ih =>
    intro c
    rw [runTotals_cons, handle_fst, ih, List.length_cons,
      List.range_succ_eq_map, List.map_cons, List.map_map]
    refine congrArg₂ List.cons rfl ?_
    have hfun : ((fun i => (c + i + 1) % U64MOD) ∘ Nat.succ)
        = fun i => ((c + 1) % U64MOD + i + 1) % U64MOD := by
      funext i
      simp only [Function.comp_apply, Nat.succ_eq_add_one]
      rw [Nat.add_assoc ((c + 1) % U64MOD), Nat.mod_add_mod]
      congr 1
      omega
    rw [hfun]

/-- Totals before any wrap: with start counter `0` and fewer than `2 ^ 64`
requests, the `i`-th total is exactly `i + 1`. -/
theorem runTotals_no_wrap (ms : List Ping) (h : ms.length < U64MOD) :
    runTotals ⟨0⟩ ms = (List.range ms.length).map (· + 1) := by
  rw [runTotals_formula]
  refine List.map_congr_left ?_
  intro i hi
  have hi' : i < ms.length := List.mem_range.1 hi
  have : 0 + i + 1 < U64MOD := by omega
  simpa using Nat.mod_eq_of_lt this

/-- C1: one call of `PingActor::handle` increments the counter exactly once
(u64 increment), echoes the request's sequence, and reports as `total_pings`
the counter value immediately after that increment. -/
theorem handle_one_increment_echo_total (a : PingActor) (m : Ping) :
    (a.handle m).1.ping_count = (a.ping_count + 1) % U64MOD ∧
    (a.handle m).2.pong.sequence = m.sequence ∧
    (a.handle m).2.pong.total_pings = (a.handle m).1.ping_count :=
  ⟨rfl, rfl, rfl⟩

/-- C2 counterexample: for `N = 2 ^ 64` requests from counter `0`, the
multiset of reply totals is NOT `{1, …, N}`: the wrapped counter produces a
total of `0`, which `{1, …, N}` does not contain. -/
theorem totals_multiset_wrap_cex :
    ¬ (runTotals ⟨0⟩ (List.replicate (2 ^ 64) ⟨"hi", 1⟩)).Perm
        ((List.range (2 ^ 64)).map (· + 1)) := by
  intro hperm
  have h0 : (0 : Nat) ∈ runTotals ⟨0⟩ (List.replicate (2 ^ 64) ⟨"hi", 1⟩) := by
    rw [runTotals_formula, List.length_replicate]
    refine List.mem_map.2 ⟨2 ^ 64 - 1, List.mem_range.2 (by norm_num), ?_⟩
    have he : 0 + (2 ^ 64 - 1) + 1 = 2 ^ 64 := by norm_num
    rw [he]
    exact Nat.mod_self _
  obtain ⟨i, _, hieq⟩ := List.mem_map.1 (hperm.mem_iff.1 h0)
  omega

/-- C2 (amended): for any sequence of at most `2 ^ 64 − 1` requests processed
from counter `0`, the totals are exactly the list `[1, …, N]`, hence their
multiset is `{1, …, N}` with each value once. -/
theorem totals_multiset_before_wrap (ms : List Ping)
    (h : ms.length < 2 ^ 64) :
    runTotals ⟨0⟩ ms = (List.range ms.length).map (· + 1) ∧
    (runTotals ⟨0⟩ ms).Perm ((List.range ms.length).map (· + 1)) := by
  have heq := runTotals_no_wrap ms h
  exact ⟨heq, heq ▸ List.Perm.refl _⟩

/-- C2 witness. -/
theorem totals_multiset_before_wrap_wit :
    ([(⟨"a", 1⟩ : Ping), ⟨"b", 2⟩].length < 2 ^ 64) ∧
    (runTotals ⟨0⟩ [(⟨"a", 1⟩ : Ping), ⟨"b", 2⟩]
        = (List.range 2).map (· + 1) ∧
      (runTotals ⟨0⟩ [(⟨"a", 1⟩ : Ping), ⟨"b", 2⟩]).Perm
        ((List.range 2).map (· + 1))) :=
  ⟨by norm_num, totals_multiset_before_wrap _ (by norm_num)⟩

/-- A list ending in `z` after a last element `x` with `¬ x < z` is not a
strictly increasing chain. -/
theorem not_chain_of_getLast (L : List Nat) (x z : Nat)
    (hL : L.getLast? = some x) (hz : ¬ x < z) :
    ¬ List.Chain' (· < ·) (L ++ [z]) := by
  intro hch
  rcases List.chain'_append.1 hch with ⟨-, -, hlink⟩
  exact hz (hlink x (Option.mem_def.2 hL) z (Option.mem_def.2 rfl))

/-- C3 counterexample: at the `2 ^ 64`-th request from counter `0` the `u64`
counter wraps to `0` (it was `2 ^ 64 − 1` one request earlier), so the
counter decreases and the totals are not strictly increasing. -/
theorem totals_increase_wrap_cex :
    (runFrom ⟨0⟩ (List.replicate (2 ^ 64 - 1) (⟨"hi", 1⟩ : Ping))).2.ping_count
        = 2 ^ 64 - 1 ∧
    (runFrom ⟨0⟩ (List.replicate (2 ^ 64) (⟨"hi", 1⟩ : Ping))).2.ping_count
        = 0 ∧
    ¬ List.Chain' (· < ·)
        (runTotals ⟨0⟩ (List.replicate (2 ^ 64) (⟨"hi", 1⟩ : Ping))) := by
  refine ⟨?_, ?_, ?_⟩
  · rw [runFrom_count _ 0 U64MOD_pos, List.length_replicate]
    norm_num [U64MOD]
  · rw [runFrom_count _ 0 U64MOD_pos, List.length_replicate]
    norm_num [U64MOD]
  · rw [runTotals_formula, List.length_replicate,
      show (2 ^ 64 : Nat) = 2 ^ 64 - 1 + 1 from by norm_num,
      List.range_succ]
    simp only [List.map_append, List.map_cons, List.map_nil]
    have e0 : (0 + (2 ^ 64 - 1) + 1) % U64MOD = 0 := by
      norm_num [U64MOD]
    rw [e0]
    refine not_chain_of_getLast _ (2 ^ 64 - 1) 0 ?_ (Nat.not_lt_zero _)
    rw [show (2 ^ 64 - 1 : Nat) = 2 ^ 64 - 2 + 1 from by norm_num,
      List.range_succ]
    simp only [List.map_append, List.map_cons, List.map_nil]
    rw [List.getLast?_concat]
    have e1 : (0 + (2 ^ 64 - 2) + 1) % U64MOD = 2 ^ 64 - 1 := by
      norm_num [U64MOD]
    rw [e1]
    norm_num

/-- C3 (amended): started from counter `0`, while fewer than `2 ^ 64`
requests have been handled the counter after `k` requests equals `k` (so it
increases by exactly one per request and is non-decreasing) and the totals
observed in submission order are strictly increasing. -/
theorem totals_strictly_increasing_before_wrap (ms : List Ping)
    (h : ms.length < 2 ^ 64) :
    (∀ k, k ≤ ms.length →
        (runFrom ⟨0⟩ (ms.take k)).2.ping_count = k) ∧
    List.Chain' (· < ·) (runTotals ⟨0⟩ ms) := by
  constructor
  · intro k hk
    rw [runFrom_count _ 0 U64MOD_pos, List.length_take]
    rw [Nat.min_eq_left hk]
    have hk2 : k < U64MOD := lt_of_le_of_lt hk h
    simp only [Nat.zero_add]
    exact Nat.mod_eq_of_lt hk2
  · rw [runTotals_no_wrap ms h]
    exact (((List.pairwise_lt_range _).map (· + 1)
      fun a b hab => Nat.succ_lt_succ hab)).chain'

/-- C3 witness. -/
theorem totals_strictly_increasing_before_wrap_wit :
    ([(⟨"a", 1⟩ : Ping), ⟨"b", 2⟩].length < 2 ^ 64) ∧
    ((∀ k, k ≤ [(⟨"a", 1⟩ : Ping), ⟨"b", 2⟩].length →
        (runFrom ⟨0⟩ ([(⟨"a", 1⟩ : Ping), ⟨"b", 2⟩].take k)).2.ping_count
          = k) ∧
      List.Chain' (· < ·) (runTotals ⟨0⟩ [(⟨"a", 1⟩ : Ping), ⟨"b", 2⟩])) :=
  ⟨by norm_num, totals_strictly_increasing_before_wrap _ (by norm_num)⟩

/-- C9: `ping_count` is a `u64` updated by unchecked `+= 1`, so counter and
`total_pings` are computed mod `2 ^ 64`; at counter `2 ^ 64 − 1` the next
request wraps the counter to `0` and its total (`0`) is no longer larger
than the previous total (`2 ^ 64 − 1`). -/
theorem ping_count_wraps_mod_u64 :
    (∀ (a : PingActor) (m : Ping),
        (a.handle m).1.ping_count = (a.ping_count + 1) % 2 ^ 64 ∧
        (a.handle m).2.pong.total_pings = (a.ping_count + 1) % 2 ^ 64) ∧
    (PingActor.handle ⟨2 ^ 64 - 1⟩ ⟨"hi", 1⟩).1.ping_count = 0 ∧
    (PingActor.handle ⟨2 ^ 64 - 1⟩ ⟨"hi", 1⟩).2.pong.total_pings = 0 ∧
    ¬ ((2 ^ 64 - 1 : Nat) <
        (PingActor.handle ⟨2 ^ 64 - 1⟩ ⟨"hi", 1⟩).2.pong.total_pings) := by
  have ht : (PingActor.handle ⟨2 ^ 64 - 1⟩ ⟨"hi", 1⟩).2.pong.total_pings
      = 0 := by
    show (2 ^ 64 - 1 + 1) % U64MOD = 0
    norm_num [U64MOD]
  refine ⟨fun a m => ⟨rfl, rfl⟩, ?_, ht, ?_⟩
  · show (2 ^ 64 - 1 + 1) % U64MOD = 0
    norm_num [U64MOD]
  · rw [ht]
    exact Nat.not_lt_zero _

/-- C7: the remote type identifier and remote-message UUID are exactly the
strings from `ping-common`, and the server build and client build (both
linking `ping-common`) carry identical values. -/
theorem remote_identifiers_exact_and_shared :
    PingActor.REMOTE_ID = "ping_pong_app::PingActor" ∧
    pingRemoteMessageUuid = "a1b2c3d4-e5f6-7890-abcd-ef1234567890" ∧
    serverRemoteId = clientRemoteId ∧
    serverRemoteMessageUuid = clientRemoteMessageUuid :=
  ⟨rfl, rfl, rfl, rfl⟩

/-- C8: both the CLI server and the CLI client configure the peer-to-peer
transport with a 120 s per-request ask deadline and a 600 s idle-connection
timeout. -/
theorem swarm_timeouts_120_600 :
    serverSwarmTimeouts.messaging.request_timeout_secs = 120 ∧
    serverSwarmTimeouts.idle_connection_timeout_secs = 600 ∧
    clientSwarmTimeouts.messaging.request_timeout_secs = 120 ∧
    clientSwarmTimeouts.idle_connection_timeout_secs = 600 :=
  ⟨rfl, rfl, rfl, rfl⟩

theorem toDigitsRev_eq_digits :
    ∀ (fuel n : Nat), n ≤ fuel → toDigitsRev fuel n = Nat.digits 10 n := by
  intro fuel
  induction fuel with
  | zero =>
    intro n hn
    have : n = 0 := by omega
    subst this
    simp [toDigitsRev]
  | succ f ih =>
    intro n hn
    by_cases h0 : n = 0
    · subst h0; simp [toDigitsRev]
    · rw [show toDigitsRev (f + 1) n
          = if n = 0 then [] else n % 10 :: toDigitsRev f (n / 10) from rfl,
        if_neg h0,
        Nat.digits_def' (by norm_num : (1 : Nat) < 10) (Nat.pos_of_ne_zero h0),
        ih _ (by omega)]

theorem natDigits_eq (n : Nat) (h : n ≠ 0) :
    natDigits n = (Nat.digits 10 n).reverse := by
  rw [natDigits, if_neg h, toDigitsRev_eq_digits n n le_rfl]

/-- C4: sending the text frame with message `"hi"` and sequence `42` to a
freshly started server (counter `0`) produces exactly one reply frame,
`{"message":"Pong! Responding to: hi","sequence":42,"total_pings":1}`; and
in general the reply message is `"Pong! Responding to: "` followed by the
request's message. -/
theorem websocket_hi_42_single_reply :
    handleSocket ⟨0⟩
        [.text "\x7b\"message\":\"hi\",\"sequence\":42\x7d" false false]
      = (["\x7b\"message\":\"Pong! Responding to: hi\",\"sequence\":42,\"total_pings\":1\x7d"],
          ⟨1⟩) ∧
    ∀ (a : PingActor) (m : Ping),
      (a.handle m).2.pong.message = "Pong! Responding to: " ++ m.message :=
  ⟨by decide, fun a m => rfl⟩

/-- C6: a text frame that does not parse as a `Ping` is skipped — the handler
is not invoked, no reply is sent, and the remaining frames are processed as
if the bad frame had not arrived — while a close frame ends the loop. -/
theorem websocket_malformed_skip_close :
    (∀ (a : PingActor) (s : String) (af sf : Bool) (rest : List SocketEvent),
        pingFromStr s = none →
        handleSocket a (.text s af sf :: rest) = handleSocket a rest) ∧
    (∀ (a : PingActor) (rest : List SocketEvent),
        handleSocket a (.closeFrame :: rest) = ([], a)) := by
  constructor
  · intro a s af sf rest hs
    simp [handleSocket, hs]
  · intro a rest
    rfl

/-- C6 witness. -/
theorem websocket_malformed_skip_close_wit :
    pingFromStr "oops" = none ∧
    handleSocket ⟨0⟩
        [.text "oops" false false,
          .text "\x7b\"message\":\"hi\",\"sequence\":1\x7d" false false]
      = handleSocket ⟨0⟩
          [.text "\x7b\"message\":\"hi\",\"sequence\":1\x7d" false false] :=
  ⟨by decide,
    websocket_malformed_skip_close.1 ⟨0⟩ "oops" false false
      [.text "\x7b\"message\":\"hi\",\"sequence\":1\x7d" false false]
      (by decide)⟩

/-- C10: a parsed request whose `ask` errors produces no reply but leaves the
loop running (the remaining frames are processed unchanged); the loop breaks
exactly on a close frame, a receive error, or a failed send — with no
stopping event the whole input is consumed and the final actor state is that
of running the handler over every accepted request. -/
theorem websocket_ask_error_continues :
    (∀ (a : PingActor) (s : String) (p : Ping) (sf : Bool)
        (rest : List SocketEvent),
        pingFromStr s = some p →
        handleSocket a (.text s true sf :: rest) = handleSocket a rest) ∧
    (∀ (a : PingActor) (rest : List SocketEvent),
        handleSocket a (.recvError :: rest) = ([], a)) ∧
    (∀ (a : PingActor) (s : String) (p : Ping) (rest : List SocketEvent),
        pingFromStr s = some p →
        handleSocket a (.text s false true :: rest) = ([], (a.handle p).1)) ∧
    (∀ (events : List SocketEvent) (a : PingActor),
        (∀ e ∈ events, e.canStop = false) →
        (handleSocket a events).2 = (runFrom a (acceptedPings events)).2) := by
  refine ⟨?_, ?_, ?_, ?_⟩
  · intro a s p sf rest hs
    simp [handleSocket, hs]
  · intro a rest
    rfl
  · intro a s p rest hs
    simp [handleSocket, hs]
  · intro events
    induction events with
    | nil => intro a h; rfl
    | cons e rest ih =>
      intro a h
      have he := h e (List.mem_cons_self e rest)
      have hrest : ∀ e2 ∈ rest, e2.canStop = false :=
        fun e2 he2 => h e2 (List.mem_cons_of_mem _ he2)
      cases e with
      | text s askF sendF =>
        have hsf : sendF = false := by
          simpa [SocketEvent.canStop] using he
        subst hsf
        cases hp : pingFromStr s with
        | none =>
          cases askF <;>
            simp [handleSocket, hp, acceptedPings, List.filterMap_cons,
              ih _ hrest]
        | some p =>
          cases askF with
          | true =>
            simp [handleSocket, hp, acceptedPings, List.filterMap_cons,
              ih _ hrest]
          | false =>
            simp only [handleSocket, hp, if_neg Bool.false_ne_true,
              acceptedPings, List.filterMap_cons]
            simp only [acceptedPings] at ih
            rw [runFrom_cons]
            exact ih _ hrest
      | closeFrame =>
        simp [SocketEvent.canStop] at he
      | recvError =>
        simp [SocketEvent.canStop] at he
      | other =>
        simp [handleSocket, acceptedPings, List.filterMap_cons, ih _ hrest]

/-- C10 witness. -/
theorem websocket_ask_error_continues_wit :
    pingFromStr "\x7b\"message\":\"hi\",\"sequence\":7\x7d" = some ⟨"hi", 7⟩ ∧
    handleSocket ⟨0⟩
        [.text "\x7b\"message\":\"hi\",\"sequence\":7\x7d" true false,
          .other]
      = handleSocket ⟨0⟩ [.other] :=
  ⟨by decide,
    websocket_ask_error_continues.1 ⟨0⟩ _ ⟨"hi", 7⟩ false [.other]
      (by decide)⟩

theorem string_mk_toList (s : String) : String.mk s.toList = s := rfl

theorem escChar_parse (c : Char) (tail : List Char) :
    parseStrChars (escChar c ++ tail) = consStr c (parseStrChars tail) := by
  by_cases h1 : c = '"'
  · subst h1; rfl
  by_cases h2 : c = '\\'
  · subst h2; rfl
  by_cases h8 : c.toNat < 32
  · obtain ⟨n, hn, rfl⟩ : ∃ n, n < 32 ∧ c = Char.ofNat n :=
      ⟨c.toNat, h8, (Char.ofNat_toNat c).symm⟩
    interval_cases n <;> rfl
  · have e1 : escChar c = [c] := by
      unfold escChar
      rw [if_neg h1, if_neg h2, if_neg (by omega), if_neg (by omega),
        if_neg (by omega), if_neg (by omega), if_neg (by omega), if_neg h8]
    rw [e1]
    show parseStrChars (c :: tail) = _
    rw [parseStrChars.eq_def]
    simp only []
    rw [if_neg h1, if_neg h2, if_neg (by omega)]

theorem parseStrChars_escChars (cs rest : List Char) :
    parseStrChars (escChars cs ++ ('"' :: rest)) = some (cs, rest) := by
  induction cs with
  | nil => rfl
  | cons c cs ih =>
    rw [show escChars (c :: cs) = escChar c ++ escChars cs from by
        simp [escChars], List.append_assoc, escChar_parse, ih]
    rfl

theorem hexVal_digitChar : ∀ v, v < 16 → hexVal (Nat.digitChar v) = some v := by decide

theorem digitChar_not_special : ∀ d, d < 10 →
    isDigitChar (Nat.digitChar d) = true ∧
    (Nat.digitChar d).toNat - 48 = d ∧
    isWsChar (Nat.digitChar d) = false ∧
    Nat.digitChar d ≠ lbrace ∧ Nat.digitChar d ≠ '[' ∧
    Nat.digitChar d ≠ '"' ∧ Nat.digitChar d ≠ 't' ∧
    Nat.digitChar d ≠ 'f' ∧ Nat.digitChar d ≠ 'n' := by decide

theorem parseDigits_not_digit (r : List Char) (h : headIsDigit r = false) :
    parseDigits r = ([], r) := by
  cases r with
  | nil => rfl
  | cons c cs =>
    have hc : isDigitChar c = false := h
    simp [parseDigits, hc]

theorem parseDigits_map (ds : List Nat) (r : List Char)
    (hds : ∀ d ∈ ds, d < 10) (hr : headIsDigit r = false) :
    parseDigits (ds.map Nat.digitChar ++ r) = (ds, r) := by
  induction ds with
  | nil => simpa using parseDigits_not_digit r hr
  | cons d t ih =>
    have hd := digitChar_not_special d (hds d (List.mem_cons_self _ _))
    simp only [List.map_cons, List.cons_append]
    simp [parseDigits, hd.1, hd.2.1,
      ih (fun x hx => hds x (List.mem_cons_of_mem _ hx))]

theorem foldl_digits_reverse (L : List Nat) (a : Nat) :
    L.reverse.foldl (fun x d => 10 * x + d) a
      = a * 10 ^ L.length + Nat.ofDigits 10 L := by
  induction L generalizing a with
  | nil => simp [Nat.ofDigits_nil]
  | cons d T ih =>
    rw [List.reverse_cons, List.foldl_append, ih]
    simp only [List.foldl_cons, List.foldl_nil, Nat.ofDigits_cons,
      List.length_cons, Nat.cast_id]
    ring

theorem natDigits_ne_nil (n : Nat) : natDigits n ≠ [] := by
  by_cases h : n = 0
  · subst h; simp [natDigits]
  · rw [natDigits_eq n h]
    simp [Nat.digits_ne_nil_iff_ne_zero.mpr h]

theorem natDigits_lt (n : Nat) : ∀ d ∈ natDigits n, d < 10 := by
  intro d hd
  by_cases h : n = 0
  · subst h
    simp [natDigits] at hd
    omega
  · rw [natDigits_eq n h] at hd
    exact Nat.digits_lt_base (by norm_num) (List.mem_reverse.1 hd)

theorem natDigits_foldl (n : Nat) :
    (natDigits n).foldl (fun x d => 10 * x + d) 0 = n := by
  by_cases h : n = 0
  · subst h; rfl
  · rw [natDigits_eq n h, foldl_digits_reverse]
    simp [Nat.ofDigits_digits]

theorem natDigits_headI (n : Nat) (h : n ≠ 0) : (natDigits n).headI ≠ 0 := by
  have hne : Nat.digits 10 n ≠ [] := Nat.digits_ne_nil_iff_ne_zero.mpr h
  have hrev : (Nat.digits 10 n).reverse ≠ [] := by simpa using hne
  obtain ⟨x, xs, hx⟩ := List.exists_cons_of_ne_nil hrev
  rw [natDigits_eq n h, hx]
  have hhead : (Nat.digits 10 n).reverse.head? = some x := by rw [hx]; rfl
  rw [List.head?_reverse] at hhead
  rw [List.getLast?_eq_getLast _ hne] at hhead
  have hxl : (Nat.digits 10 n).getLast hne = x := by
    injection hhead
  simp only [List.headI]
  rw [← hxl]
  exact Nat.getLast_digit_ne_zero 10 h

theorem natDigits_no_lz (n : Nat) :
    ¬(2 ≤ (natDigits n).length ∧ (natDigits n).headI = 0) := by
  by_cases h : n = 0
  · subst h; simp [natDigits]
  · intro hc
    exact natDigits_headI n h hc.2

theorem parseNum_natChars (n : Nat) (r : List Char)
    (hr : headIsDigit r = false) (hf : floatFollows r = false) :
    parseNum (natChars n ++ r) = some (.num n, r) := by
  unfold parseNum natChars
  rw [parseDigits_map _ _ (natDigits_lt n) hr]
  simp [natDigits_ne_nil n, natDigits_no_lz n, hf, natDigits_foldl n]

theorem skipWs_cons_false (c : Char) (l : List Char) (h : isWsChar c = false) :
    skipWs (c :: l) = c :: l := by simp [skipWs, h]

theorem quote_ne_lbrace : ('"' : Char) ≠ lbrace := by decide

theorem quote_ne_rbrace : ('"' : Char) ≠ rbrace := by decide

theorem rbrace_ne_comma : rbrace ≠ (',' : Char) := by decide

theorem parseValue_lbrace (fuel : Nat) (cs : List Char) :
    parseValue (fuel + 2) (lbrace :: cs) = parseObjBody (fuel + 1) cs := rfl

theorem parseValue_str_of (fuel : Nat) (cs sl r : List Char)
    (h : parseStrChars cs = some (sl, r)) :
    parseValue (fuel + 1) ('"' :: cs) = some (.str (String.mk sl), r) := by
  simp [parseValue, skipWs_cons_false '"' cs (by decide), h, quote_ne_lbrace]

theorem parseValue_digit (fuel n : Nat) (r : List Char)
    (hr : headIsDigit r = false) (hf : floatFollows r = false) :
    parseValue (fuel + 1) (natChars n ++ r) = some (.num n, r) := by
  obtain ⟨d0, ds, hds⟩ := List.exists_cons_of_ne_nil (natDigits_ne_nil n)
  have hd0 : d0 < 10 := natDigits_lt n d0 (by rw [hds]; exact List.mem_cons_self _ _)
  have hf0 := digitChar_not_special d0 hd0
  have hshape : natChars n ++ r
      = Nat.digitChar d0 :: (ds.map Nat.digitChar ++ r) := by
    rw [natChars, hds]
    simp
  rw [hshape]
  simp only [parseValue]
  rw [skipWs_cons_false _ _ hf0.2.2.1]
  simp only [hf0.1, hf0.2.2.2.1, hf0.2.2.2.2.1, hf0.2.2.2.2.2.1,
    hf0.2.2.2.2.2.2.1, hf0.2.2.2.2.2.2.2.1, hf0.2.2.2.2.2.2.2.2]
  rw [← hshape]
  exact parseNum_natChars n r hr hf

theorem parseObjBody_of_fields (fuel : Nat) (cs : List Char)
    (fs : List (String × Json)) (r : List Char)
    (h : parseFields fuel ('"' :: cs) = some (fs, r)) :
    parseObjBody (fuel + 1) ('"' :: cs) = some (.obj fs, r) := by
  simp [parseObjBody, skipWs_cons_false '"' cs (by decide), h, quote_ne_rbrace]

theorem parseFields_one (fuel : Nat) (cs ks r2 r4 : List Char) (v : Json)
    (hk : parseStrChars cs = some (ks, ':' :: r2))
    (hv : parseValue fuel r2 = some (v, rbrace :: r4)) :
    parseFields (fuel + 1) ('"' :: cs) = some ([(String.mk ks, v)], r4) := by
  simp [parseFields, skipWs_cons_false '"' cs (by decide),
    skipWs_cons_false ':' r2 (by decide),
    skipWs_cons_false rbrace r4 (by decide), hk, hv, rbrace_ne_comma]

theorem parseFields_more (fuel : Nat) (cs ks r2 r4 : List Char) (v : Json)
    (fs : List (String × Json)) (r5 : List Char)
    (hk : parseStrChars cs = some (ks, ':' :: r2))
    (hv : parseValue fuel r2 = some (v, ',' :: r4))
    (hrest : parseFields fuel r4 = some (fs, r5)) :
    parseFields (fuel + 1) ('"' :: cs) = some ((String.mk ks, v) :: fs, r5) := by
  simp [parseFields, skipWs_cons_false '"' cs (by decide),
    skipWs_cons_false ':' r2 (by decide),
    skipWs_cons_false ',' r4 (by decide), hk, hv, hrest]

theorem headIsDigit_cons (c : Char) (l : List Char) :
    headIsDigit (c :: l) = isDigitChar c := rfl

theorem floatFollows_cons (c : Char) (l : List Char) :
    floatFollows (c :: l) = (c = '.' || c = 'e' || c = 'E') := rfl

theorem parseValue_quoteChars (fuel : Nat) (s : String) (r : List Char) :
    parseValue (fuel + 1) (quoteChars s ++ r) = some (.str s, r) := by
  have hq : quoteChars s ++ r = '"' :: (escChars s.toList ++ ('"' :: r)) := by
    simp [quoteChars]
  rw [hq, parseValue_str_of fuel _ _ _ (parseStrChars_escChars s.toList r),
    string_mk_toList]

theorem parse_pingToChars (fuel : Nat) (p : Ping) (r : List Char) :
    parseValue (fuel + 5) (pingToChars p ++ r)
      = some (.obj [("message", .str p.message),
          ("sequence", .num p.sequence)], r) := by
  have hshape : pingToChars p ++ r
      = lbrace :: ('"' :: (escChars "message".toList
        ++ ('"' :: (':' :: (quoteChars p.message
        ++ (',' :: ('"' :: (escChars "sequence".toList
        ++ ('"' :: (':' :: (natChars p.sequence ++ (rbrace :: r)))))))))))) := by
    simp [pingToChars, quoteChars, List.append_assoc]
  rw [hshape, show fuel + 5 = (fuel + 3) + 2 from by omega, parseValue_lbrace]
  rw [parseObjBody_of_fields _ _ _ _
    (parseFields_more _ _ _ _ _ _ _ _
      (parseStrChars_escChars _ _)
      (parseValue_quoteChars _ _ _)
      (parseFields_one _ _ _ _ _ _
        (parseStrChars_escChars _ _)
        (parseValue_digit _ _ _ (by rw [headIsDigit_cons]; decide)
          (by rw [floatFollows_cons]; decide))))]
  simp only [string_mk_toList]

theorem parse_pongToChars (fuel : Nat) (q : Pong) (r : List Char) :
    parseValue (fuel + 6) (pongToChars q ++ r)
      = some (.obj [("message", .str q.message),
          ("sequence", .num q.sequence),
          ("total_pings", .num q.total_pings)], r) := by
  have hshape : pongToChars q ++ r
      = lbrace :: ('"' :: (escChars "message".toList
        ++ ('"' :: (':' :: (quoteChars q.message
        ++ (',' :: ('"' :: (escChars "sequence".toList
        ++ ('"' :: (':' :: (natChars q.sequence
        ++ (',' :: ('"' :: (escChars "total_pings".toList
        ++ ('"' :: (':' :: (natChars q.total_pings
        ++ (rbrace :: r)))))))))))))))))) := by
    simp [pongToChars, quoteChars, List.append_assoc]
  rw [hshape, show fuel + 6 = (fuel + 4) + 2 from by omega, parseValue_lbrace]
  rw [parseObjBody_of_fields _ _ _ _
    (parseFields_more _ _ _ _ _ _ _ _
      (parseStrChars_escChars _ _)
      (parseValue_quoteChars _ _ _)
      (parseFields_more _ _ _ _ _ _ _ _
        (parseStrChars_escChars _ _)
        (parseValue_digit _ _ _ (by rw [headIsDigit_cons]; decide)
          (by rw [floatFollows_cons]; decide))
        (parseFields_one _ _ _ _ _ _
          (parseStrChars_escChars _ _)
          (parseValue_digit _ _ _ (by rw [headIsDigit_cons]; decide)
            (by rw [floatFollows_cons]; decide)))))]
  simp only [string_mk_toList]

theorem jsonFromStr_pingToStr (p : Ping) :
    jsonFromStr (pingToStr p)
      = some (.obj [("message", .str p.message),
          ("sequence", .num p.sequence)]) := by
  unfold jsonFromStr pingToStr
  rw [show (String.mk (pingToChars p)).toList = pingToChars p from rfl]
  rw [show 3 * (pingToChars p).length + 16
      = ((3 * (pingToChars p).length + 11) + 5) from by omega]
  rw [show pingToChars p = pingToChars p ++ ([] : List Char) from by simp]
  rw [parse_pingToChars]
  rfl

theorem jsonFromStr_pongToStr (q : Pong) :
    jsonFromStr (pongToStr q)
      = some (.obj [("message", .str q.message),
          ("sequence", .num q.sequence),
          ("total_pings", .num q.total_pings)]) := by
  unfold jsonFromStr pongToStr
  rw [show (String.mk (pongToChars q)).toList = pongToChars q from rfl]
  rw [show 3 * (pongToChars q).length + 16
      = ((3 * (pongToChars q).length + 10) + 6) from by omega]
  rw [show pongToChars q = pongToChars q ++ ([] : List Char) from by simp]
  rw [parse_pongToChars]
  rfl

theorem pingOfJson_mk (p : Ping) (h : p.sequence < U64MOD) :
    pingOfJson (.obj [("message", .str p.message),
      ("sequence", .num p.sequence)]) = some p := by
  simp [pingOfJson, countKey, getField, h]

theorem pongOfJson_mk (q : Pong) (h1 : q.sequence < U64MOD)
    (h2 : q.total_pings < U64MOD) :
    pongOfJson (.obj [("message", .str q.message),
      ("sequence", .num q.sequence),
      ("total_pings", .num q.total_pings)]) = some q := by
  simp [pongOfJson, countKey, getField, h1, h2]

/-- C5: JSON-encoding a `Ping` and decoding it yields an equal value, and
likewise for a `Pong`; the `Pong` wire object carries the counter under the
field name `total_pings`. -/
theorem json_roundtrip_and_wire_field :
    (∀ p : Ping, p.sequence < 2 ^ 64 →
      pingFromStr (pingToStr p) = some p) ∧
    (∀ q : Pong, q.sequence < 2 ^ 64 → q.total_pings < 2 ^ 64 →
      pongFromStr (pongToStr q) = some q) ∧
    (∀ q : Pong, jsonFromStr (pongToStr q)
      = some (.obj [("message", .str q.message),
          ("sequence", .num q.sequence),
          ("total_pings", .num q.total_pings)])) := by
  refine ⟨?_, ?_, jsonFromStr_pongToStr⟩
  · intro p h
    unfold pingFromStr
    rw [jsonFromStr_pingToStr, Option.some_bind]
    exact pingOfJson_mk p h
  · intro q h1 h2
    unfold pongFromStr
    rw [jsonFromStr_pongToStr, Option.some_bind]
    exact pongOfJson_mk q h1 h2

/-- C5 witness. -/
theorem json_roundtrip_and_wire_field_wit :
    ((⟨"hi", 42⟩ : Ping).sequence < 2 ^ 64 ∧
      pingFromStr (pingToStr ⟨"hi", 42⟩) = some ⟨"hi", 42⟩) ∧
    ((⟨"ok", 1, 2⟩ : Pong).sequence < 2 ^ 64 ∧
      (⟨"ok", 1, 2⟩ : Pong).total_pings < 2 ^ 64 ∧
      pongFromStr (pongToStr ⟨"ok", 1, 2⟩) = some ⟨"ok", 1, 2⟩) :=
  ⟨⟨by decide, json_roundtrip_and_wire_field.1 _ (by decide)⟩,
    ⟨by decide, by decide,
      json_roundtrip_and_wire_field.2.1 _ (by decide) (by decide)⟩⟩

end PingPong

